import Mathlib

/-!
Verification of the diff engine and render layer of `src/lib/utils/optimizedDiff.ts`.

Texts are modelled as `List Char` (JS strings), wall-clock times as `ℚ`
(JS numbers).  The wall clock itself is modelled by passing the measured
elapsed time (`performance.now() - startTime` at the measurement site) as an
explicit input to `computeDiff`.

The repository's diff core is the external `diff-match-patch` library
(`diff_main`, `diff_cleanupSemantic`), whose source is not part of the
repository; those two functions are modelled from the specification
(a minimal-edit-script / LCS diff, a coalescing pass, and a semantic cleanup
that folds short Equal islands into the surrounding change).  Everything else
is translated directly from `optimizedDiff.ts`.
-/

set_option autoImplicit false

namespace DiffViewer

/-- The three diff-match-patch operation tags `DIFF_DELETE`, `DIFF_INSERT`,
`DIFF_EQUAL`. -/
inductive DiffOp
  | delete
  | insert
  | equal
deriving DecidableEq

/-- One edit operation: a tag together with its text span
(diff-match-patch `Diff = [number, string]`). -/
abbrev Diff := DiffOp × List Char

/-- Concatenation, in order, of the spans of all Equal and Delete operations:
the reconstruction of the first input text. -/
def reconstructA : List Diff → List Char
  | [] => []
  | d :: rest => (if d.1 = DiffOp.insert then [] else d.2) ++ reconstructA rest

/-- Concatenation, in order, of the spans of all Equal and Insert operations:
the reconstruction of the second input text. -/
def reconstructB : List Diff → List Char
  | [] => []
  | d :: rest => (if d.1 = DiffOp.delete then [] else d.2) ++ reconstructB rest

/-- Total number of characters in non-Equal spans of an edit sequence (the
quantity a minimal edit script minimises). -/
def editCost : List Diff → Nat
  | [] => 0
  | d :: rest => (if d.1 = DiffOp.equal then 0 else d.2.length) + editCost rest

/-- Modelled from the spec: the core of the external library's `diff_main`,
"a classic minimal-edit-script computation (Myers-style
longest-common-subsequence diff) producing the shortest edit sequence in the
number of non-equal characters".  The internal `Diff_Timeout` abort is
wall-clock behaviour outside the model, so the modelled algorithm always runs
to completion. -/
def diff_core : List Char → List Char → List Diff
  | [], [] => []
  | [], y :: ys => [(DiffOp.insert, y :: ys)]
  | x :: xs, [] => [(DiffOp.delete, x :: xs)]
  | x :: xs, y :: ys =>
    if x = y then
      (DiffOp.equal, [x]) :: diff_core xs ys
    else
      let viaInsert := (DiffOp.insert, [y]) :: diff_core (x :: xs) ys
      let viaDelete := (DiffOp.delete, [x]) :: diff_core xs (y :: ys)
      if editCost viaDelete ≤ editCost viaInsert then viaDelete else viaInsert
termination_by a b => a.length + b.length

/-- Modelled from the spec: the library's final merge pass ("the engine must
coalesce before returning"): drops empty spans and merges adjacent same-tag
operations. -/
def diff_cleanupMerge : List Diff → List Diff
  | [] => []
  | d :: rest =>
    let r := diff_cleanupMerge rest
    if d.2 = [] then r
    else
      match r with
      | [] => [d]
      | e :: es => if d.1 = e.1 then (d.1, d.2 ++ e.2) :: es else d :: e :: es

/-- Modelled from the spec: the external library's `diff_main(text1, text2,
checklines?)`.  Per the spec the checklines pre-pass "changes performance
characteristics, not the output contract", so the flag does not affect the
modelled output. -/
def diff_main (text1 text2 : List Char) (_checklines : Bool) : List Diff :=
  diff_cleanupMerge (diff_core text1 text2)

theorem reconstructA_diff_core (a b : List Char) : reconstructA (diff_core a b) = a := by
  induction a, b using diff_core.induct with
  | case1 => simp [diff_core, reconstructA]
  | case2 y ys => simp [diff_core, reconstructA]
  | case3 x xs => simp [diff_core, reconstructA]
  | case4 xs y ys ih =>
    simp [diff_core, reconstructA, ih]
  | case5 x xs y ys hxy vI vD hc ihI ihD =>
    have hc2 : editCost ((DiffOp.delete, [x]) :: diff_core xs (y :: ys)) ≤
        editCost ((DiffOp.insert, [y]) :: diff_core (x :: xs) ys) := hc
    rw [diff_core, if_neg hxy]
    show reconstructA
        (if editCost ((DiffOp.delete, [x]) :: diff_core xs (y :: ys)) ≤
            editCost ((DiffOp.insert, [y]) :: diff_core (x :: xs) ys)
          then (DiffOp.delete, [x]) :: diff_core xs (y :: ys)
          else (DiffOp.insert, [y]) :: diff_core (x :: xs) ys) = x :: xs
    rw [if_pos hc2]
    simp [reconstructA, ihD]
  | case6 x xs y ys hxy vI vD hc ihI ihD =>
    have hc2 : ¬ editCost ((DiffOp.delete, [x]) :: diff_core xs (y :: ys)) ≤
        editCost ((DiffOp.insert, [y]) :: diff_core (x :: xs) ys) := hc
    rw [diff_core, if_neg hxy]
    show reconstructA
        (if editCost ((DiffOp.delete, [x]) :: diff_core xs (y :: ys)) ≤
            editCost ((DiffOp.insert, [y]) :: diff_core (x :: xs) ys)
          then (DiffOp.delete, [x]) :: diff_core xs (y :: ys)
          else (DiffOp.insert, [y]) :: diff_core (x :: xs) ys) = x :: xs
    rw [if_neg hc2]
    simp [reconstructA, ihI]

theorem reconstructB_diff_core (a b : List Char) : reconstructB (diff_core a b) = b := by
  induction a, b using diff_core.induct with
  | case1 => simp [diff_core, reconstructB]
  | case2 y ys => simp [diff_core, reconstructB]
  | case3 x xs => simp [diff_core, reconstructB]
  | case4 xs y ys ih =>
    simp [diff_core, reconstructB, ih]
  | case5 x xs y ys hxy vI vD hc ihI ihD =>
    have hc2 : editCost ((DiffOp.delete, [x]) :: diff_core xs (y :: ys)) ≤
        editCost ((DiffOp.insert, [y]) :: diff_core (x :: xs) ys) := hc
    rw [diff_core, if_neg hxy]
    show reconstructB
        (if editCost ((DiffOp.delete, [x]) :: diff_core xs (y :: ys)) ≤
            editCost ((DiffOp.insert, [y]) :: diff_core (x :: xs) ys)
          then (DiffOp.delete, [x]) :: diff_core xs (y :: ys)
          else (DiffOp.insert, [y]) :: diff_core (x :: xs) ys) = y :: ys
    rw [if_pos hc2]
    simp [reconstructB, ihD]
  | case6 x xs y ys hxy vI vD hc ihI ihD =>
    have hc2 : ¬ editCost ((DiffOp.delete, [x]) :: diff_core xs (y :: ys)) ≤
        editCost ((DiffOp.insert, [y]) :: diff_core (x :: xs) ys) := hc
    rw [diff_core, if_neg hxy]
    show reconstructB
        (if editCost ((DiffOp.delete, [x]) :: diff_core xs (y :: ys)) ≤
            editCost ((DiffOp.insert, [y]) :: diff_core (x :: xs) ys)
          then (DiffOp.delete, [x]) :: diff_core xs (y :: ys)
          else (DiffOp.insert, [y]) :: diff_core (x :: xs) ys) = y :: ys
    rw [if_neg hc2]
    simp [reconstructB, ihI]

theorem reconstructA_diff_cleanupMerge (ds : List Diff) :
    reconstructA (diff_cleanupMerge ds) = reconstructA ds := by
  induction ds with
  | nil => rfl
  | cons d rest ih =>
    simp only [diff_cleanupMerge]
    by_cases hd : d.2 = []
    · simp only [if_pos hd]
      simp [reconstructA, ih, hd]
    · simp only [if_neg hd]
      cases hr : diff_cleanupMerge rest with
      | nil =>
        rw [hr] at ih
        simp [reconstructA, ← ih]
      | cons e es =>
        rw [hr] at ih
        by_cases he : d.1 = e.1
        · simp only [if_pos he]
          simp only [reconstructA, ← ih, he]
          by_cases hi : e.1 = DiffOp.insert
          · simp [hi]
          · simp [hi, List.append_assoc]
        · simp only [if_neg he]
          simp [reconstructA, ← ih]

theorem reconstructB_diff_cleanupMerge (ds : List Diff) :
    reconstructB (diff_cleanupMerge ds) = reconstructB ds := by
  induction ds with
  | nil => rfl
  | cons d rest ih =>
    simp only [diff_cleanupMerge]
    by_cases hd : d.2 = []
    · simp only [if_pos hd]
      simp [reconstructB, ih, hd]
    · simp only [if_neg hd]
      cases hr : diff_cleanupMerge rest with
      | nil =>
        rw [hr] at ih
        simp [reconstructB, ← ih]
      | cons e es =>
        rw [hr] at ih
        by_cases he : d.1 = e.1
        · simp only [if_pos he]
          simp only [reconstructB, ← ih, he]
          by_cases hi : e.1 = DiffOp.delete
          · simp [hi]
          · simp [hi, List.append_assoc]
        · simp only [if_neg he]
          simp [reconstructB, ← ih]

theorem chain_diff_cleanupMerge (ds : List Diff) :
    List.Chain' (fun d e => d.1 ≠ e.1) (diff_cleanupMerge ds) := by
  induction ds with
  | nil => simp [diff_cleanupMerge]
  | cons d rest ih =>
    simp only [diff_cleanupMerge]
    by_cases hd : d.2 = []
    · simpa [if_pos hd] using ih
    · simp only [if_neg hd]
      cases hr : diff_cleanupMerge rest with
      | nil => simp
      | cons e es =>
        rw [hr] at ih
        by_cases he : d.1 = e.1
        · simp only [if_pos he]
          cases es with
          | nil => simp
          | cons f fs =>
            rcases List.chain'_cons.mp ih with ⟨hef, hch⟩
            exact List.chain'_cons.mpr ⟨by simpa [he] using hef, hch⟩
        · simp only [if_neg he]
          exact List.chain'_cons.mpr ⟨he, ih⟩

/-- Modelled from the spec: the readability part of the library's
`diff_cleanupSemantic`, which "drops or absorbs Equal runs shorter than a
small fixed length (default 3 characters) when they sit between two non-Equal
runs, folding them into the surrounding change"; folding the island into both
the deleted and the inserted side keeps both reconstructions intact. -/
def absorbShortEquals : List Diff → List Diff
  | p :: e :: n :: rest =>
    if e.1 = DiffOp.equal ∧ e.2.length < 3 ∧ p.1 ≠ DiffOp.equal ∧ n.1 ≠ DiffOp.equal then
      p :: (DiffOp.delete, e.2) :: (DiffOp.insert, e.2) :: absorbShortEquals (n :: rest)
    else
      p :: absorbShortEquals (e :: n :: rest)
  | l => l
termination_by l => l.length

/-- Modelled from the spec: the external library's `diff_cleanupSemantic`
pass: "merge adjacent same-tag operations; then apply a readability pass ...
This must not change what each output text reconstructs to". -/
def diff_cleanupSemantic (ds : List Diff) : List Diff :=
  diff_cleanupMerge (absorbShortEquals (diff_cleanupMerge ds))

theorem reconstructA_absorbShortEquals (ds : List Diff) :
    reconstructA (absorbShortEquals ds) = reconstructA ds := by
  induction ds using absorbShortEquals.induct with
  | case1 p e n rest hcond ih =>
    rw [absorbShortEquals, if_pos hcond]
    simp [reconstructA, ih, hcond.1, hcond.2.1]
  | case2 p e n rest hcond ih =>
    rw [absorbShortEquals, if_neg hcond]
    simp [reconstructA, ih]
  | case3 l h =>
    match l, h with
    | [], _ => simp [absorbShortEquals]
    | [d], _ => simp [absorbShortEquals]
    | [d, e], _ => simp [absorbShortEquals]
    | p :: e :: n :: rest, h => exact absurd rfl (h p e n rest)

theorem reconstructB_absorbShortEquals (ds : List Diff) :
    reconstructB (absorbShortEquals ds) = reconstructB ds := by
  induction ds using absorbShortEquals.induct with
  | case1 p e n rest hcond ih =>
    rw [absorbShortEquals, if_pos hcond]
    simp [reconstructB, ih, hcond.1]
  | case2 p e n rest hcond ih =>
    rw [absorbShortEquals, if_neg hcond]
    simp [reconstructB, ih]
  | case3 l h =>
    match l, h with
    | [], _ => simp [absorbShortEquals]
    | [d], _ => simp [absorbShortEquals]
    | [d, e], _ => simp [absorbShortEquals]
    | p :: e :: n :: rest, h => exact absurd rfl (h p e n rest)

theorem reconstructA_diff_cleanupSemantic (ds : List Diff) :
    reconstructA (diff_cleanupSemantic ds) = reconstructA ds := by
  rw [diff_cleanupSemantic, reconstructA_diff_cleanupMerge, reconstructA_absorbShortEquals,
    reconstructA_diff_cleanupMerge]

theorem reconstructB_diff_cleanupSemantic (ds : List Diff) :
    reconstructB (diff_cleanupSemantic ds) = reconstructB ds := by
  rw [diff_cleanupSemantic, reconstructB_diff_cleanupMerge, reconstructB_absorbShortEquals,
    reconstructB_diff_cleanupMerge]

theorem reconstructA_diff_main (a b : List Char) (checklines : Bool) :
    reconstructA (diff_main a b checklines) = a := by
  rw [diff_main, reconstructA_diff_cleanupMerge, reconstructA_diff_core]

theorem reconstructB_diff_main (a b : List Char) (checklines : Bool) :
    reconstructB (diff_main a b checklines) = b := by
  rw [diff_main, reconstructB_diff_cleanupMerge, reconstructB_diff_core]

/-! ### The diff engine (`OptimizedDiffComputer`, `optimizedDiff.ts` lines 28-253) -/

/-- `SIZE_THRESHOLD_ACCURATE = 1700`. -/
def SIZE_THRESHOLD_ACCURATE : Nat := 1700

/-- `CHAR_THRESHOLD_ACCURATE = 500`. -/
def CHAR_THRESHOLD_ACCURATE : Nat := 500

/-- `DEFAULT_TIMEOUT = 5000`. -/
def DEFAULT_TIMEOUT : ℚ := 5000

/-- The `DiffOptions` record; absent (undefined) fields are `none`. -/
structure DiffOptions where
  maxComputationTimeMs : Option ℚ := none
  checkLines : Option Bool := none
  lineMode : Option Bool := none
  semanticCleanup : Option Bool := none

/-- The `algorithm` tag of a `DiffResult`. -/
inductive Algorithm
  | fast
  | accurate
  | lineBased
deriving DecidableEq

/-- The `stats` record of a `DiffResult`. -/
structure DiffStats where
  totalSize : Nat
  changeCount : Nat
  insertions : Nat
  deletions : Nat
deriving DecidableEq

/-- The `DiffResult` record returned by `computeDiff`. -/
structure DiffResult where
  diffs : List Diff
  hitTimeout : Bool
  computationTimeMs : ℚ
  algorithm : Algorithm
  stats : DiffStats

/-- `computeStats` (lines 186-209): one pass accumulating `totalSize`,
`changeCount`, `insertions`, `deletions`. -/
def computeStats (diffs : List Diff) : DiffStats :=
  diffs.foldl
    (fun s d =>
      let s := { s with totalSize := s.totalSize + d.2.length }
      match d.1 with
      | DiffOp.delete =>
        { s with deletions := s.deletions + d.2.length, changeCount := s.changeCount + 1 }
      | DiffOp.insert =>
        { s with insertions := s.insertions + d.2.length, changeCount := s.changeCount + 1 }
      | DiffOp.equal => s)
    { totalSize := 0, changeCount := 0, insertions := 0, deletions := 0 }

/-- JS `String.prototype.trim`, used on each line before hashing. -/
def trimChars (l : List Char) : List Char :=
  ((l.dropWhile Char.isWhitespace).reverse.dropWhile Char.isWhitespace).reverse

/-- The closure `getLineHash` in `computeLineDiff` (lines 125-133): look the
trimmed line up in the table, allocating the next integer id on a miss.  The
table is an association list standing for the `Map`. -/
def getLineHash (tbl : List (List Char × Nat)) (nextHash : Nat) (line : List Char) :
    Nat × List (List Char × Nat) × Nat :=
  let trimmed := trimChars line
  match tbl.lookup trimmed with
  | some h => (h, tbl, nextHash)
  | none => (nextHash, (trimmed, nextHash) :: tbl, nextHash + 1)

/-- `lines.map(l => getLineHash(l))` with the mutable table threaded through. -/
def hashAllLines (tbl : List (List Char × Nat)) (nextHash : Nat) :
    List (List Char) → List Nat × (List (List Char × Nat) × Nat)
  | [] => ([], (tbl, nextHash))
  | l :: ls =>
    let r := getLineHash tbl nextHash l
    let rest := hashAllLines r.2.1 r.2.2 ls
    (r.1 :: rest.1, rest.2)

/-- `computeLinesDiffAccurate` (lines 151-166): rejoins the lines and runs the
plain character-level diff; the `hashes` arguments and the `deadline` are
accepted and ignored, as in the source. -/
def computeLinesDiffAccurate (lines1 lines2 : List (List Char))
    (_hashes1 _hashes2 : List Nat) (_deadline : ℚ) : List Diff :=
  diff_main (List.intercalate ['\n'] lines1) (List.intercalate ['\n'] lines2) false

/-- `computeLinesDiffFast` (lines 171-181): rejoins the lines and runs the
diff with `checklines = true`; the `deadline` is accepted and ignored, as in
the source. -/
def computeLinesDiffFast (lines1 lines2 : List (List Char)) (_deadline : ℚ) : List Diff :=
  diff_main (List.intercalate ['\n'] lines1) (List.intercalate ['\n'] lines2) true

/-- `computeLineDiff` (lines 116-146): split both texts on `'\n'`, build the
line-hash table (an internal acceleration structure whose results are never
used for output), and pick the accurate or fast sub-strategy by total line
count. -/
def computeLineDiff (text1 text2 : List Char) (deadline : ℚ) : List Diff :=
  let lines1 := text1.splitOn '\n'
  let lines2 := text2.splitOn '\n'
  let totalLines := lines1.length + lines2.length
  let r1 := hashAllLines [] 0 lines1
  let hashes1 := r1.1
  let r2 := hashAllLines r1.2.1 r1.2.2 lines2
  let hashes2 := r2.1
  if totalLines < SIZE_THRESHOLD_ACCURATE then
    computeLinesDiffAccurate lines1 lines2 hashes1 hashes2 deadline
  else
    computeLinesDiffFast lines1 lines2 deadline

/-- The algorithm-selection block of `computeDiff` (lines 63-90), factored out
with the selected tag; the source computes this inline into `diffs` and
`algorithm`. -/
def selectDiffs (text1 text2 : List Char) (options : DiffOptions) (deadline : ℚ) :
    List Diff × Algorithm :=
  let shouldUseLineMode :=
    options.lineMode != some false && (text1.contains '\n' || text2.contains '\n')
  if shouldUseLineMode then
    (computeLineDiff text1 text2 deadline, Algorithm.lineBased)
  else
    let totalSize := text1.length + text2.length
    if totalSize < CHAR_THRESHOLD_ACCURATE then
      (diff_main text1 text2 false, Algorithm.accurate)
    else
      (diff_main text1 text2 true, Algorithm.fast)

/-- `computeDiff` (lines 42-111).  `performance.now()` is modelled by taking
the measured elapsed time (`performance.now() - startTime` at the measurement
sites) as the explicit input `elapsed`; `startTime` is the time origin, so the
`deadline` is just the timeout. -/
def computeDiff (text1 text2 : List Char) (options : DiffOptions) (elapsed : ℚ) : DiffResult :=
  let timeout := options.maxComputationTimeMs.getD DEFAULT_TIMEOUT
  if text1 = text2 then
    { diffs := [(DiffOp.equal, text1)]
      hitTimeout := false
      computationTimeMs := elapsed
      algorithm := Algorithm.fast
      stats :=
        { totalSize := text1.length
          changeCount := 0
          insertions := 0
          deletions := 0 } }
  else
    let deadline := timeout
    let sel := selectDiffs text1 text2 options deadline
    let computationTime := elapsed
    let hitTimeout : Bool := decide (computationTime ≥ timeout * (95 / 100))
    let diffs :=
      if !hitTimeout && options.semanticCleanup != some false then
        diff_cleanupSemantic sel.1
      else
        sel.1
    { diffs := diffs
      hitTimeout := hitTimeout
      computationTimeMs := computationTime
      algorithm := sel.2
      stats := computeStats diffs }

/-- `optimizeDiffs` (lines 214-236): skip an Equal section shorter than 3
characters when it is neither first nor last and both neighbours in the
original list are non-Equal.  The first argument carries `diffs[i - 1]`
(`none` when `i = 0`). -/
def optimizeDiffsGo : Option Diff → List Diff → List Diff
  | _, [] => []
  | prev, curr :: rest =>
    let skip : Bool :=
      curr.1 == DiffOp.equal && curr.2.length < 3 &&
        (match prev with
          | some p => p.1 != DiffOp.equal
          | none => false) &&
        (match rest with
          | n :: _ => n.1 != DiffOp.equal
          | [] => false)
    if skip then
      optimizeDiffsGo (some curr) rest
    else
      curr :: optimizeDiffsGo (some curr) rest

/-- `optimizeDiffs` entry point (loop starts with no previous element). -/
def optimizeDiffs (diffs : List Diff) : List Diff :=
  optimizeDiffsGo none diffs

/-! ### The render layer (`renderDiffToHtml`, `optimizedDiff.ts` lines 258-324) -/

/-- The `RenderOptions` record; absent (undefined) fields are `none`. -/
structure RenderOptions where
  maxChunks : Option Int := none
  highlightIndex : Option Int := none

/-- The `RenderedDiff` record returned by `renderDiffToHtml`. -/
structure RenderedDiff where
  leftHtml : List Char
  rightHtml : List Char
  changeCount : Nat
  truncated : Bool

/-- `escapeHtml` (lines 318-324).  The source applies the four `replace`
calls in the order `& < > \n`, so no replacement output is re-escaped; that
is exactly a single character-by-character mapping. -/
def escapeHtml : List Char → List Char
  | [] => []
  | c :: cs =>
    (if c = '&' then "&amp;".toList
      else if c = '<' then "&lt;".toList
      else if c = '>' then "&gt;".toList
      else if c = '\n' then "<br>".toList
      else [c]) ++ escapeHtml cs

/-- The truncation marker appended to both outputs (line 285). -/
def truncationMsg : List Char :=
  "<span class=\"text-muted-foreground italic\">[... diff truncated for performance ...]</span>".toList

/-- The highlight ring classes (lines 296, 301). -/
def ringClassStr : List Char := "ring-2 ring-blue-500 ring-offset-2".toList

/-- The left-side markup of a Delete operation (line 297). -/
def deleteSpan (ringClass : List Char) (idx : Nat) (escapedText : List Char) : List Char :=
  "<span class=\"bg-red-200 dark:bg-red-900/50 text-red-900 dark:text-red-200 ".toList ++
    ringClass ++ "\" data-diff-index=\"".toList ++ (toString idx).toList ++ "\">".toList ++
    escapedText ++ "</span>".toList

/-- The right-side markup of an Insert operation (line 302). -/
def insertSpan (ringClass : List Char) (idx : Nat) (escapedText : List Char) : List Char :=
  "<span class=\"bg-green-200 dark:bg-green-900/50 text-green-900 dark:text-green-200 ".toList ++
    ringClass ++ "\" data-diff-index=\"".toList ++ (toString idx).toList ++ "\">".toList ++
    escapedText ++ "</span>".toList

/-- The neutral markup of an Equal operation (lines 305-306). -/
def equalSpan (escapedText : List Char) : List Char :=
  "<span class=\"text-gray-700 dark:text-gray-300\">".toList ++ escapedText ++ "</span>".toList

/-- The mutable locals of the render loop (lines 277-281).  `emittedIndices`
additionally records, in order, the `data-diff-index` value of every rendered
non-Equal span — the value the loop embeds in the markup at lines 297 and 302
— so that the index assignment is directly observable. -/
structure RenderState where
  leftHtml : List Char
  rightHtml : List Char
  chunkCount : Nat
  actualDiffIndex : Nat
  truncated : Bool
  emittedIndices : List Nat

/-- The `for` loop of `renderDiffToHtml` (lines 283-308).  `chunkCount++ >
maxChunks` compares the pre-increment value; on truncation the marker is
appended to both outputs and the loop breaks. -/
def renderLoop (maxChunks highlightIndex : Int) : List Diff → RenderState → RenderState
  | [], s => s
  | (op, text) :: rest, s =>
    if (s.chunkCount : Int) > maxChunks then
      { s with
          leftHtml := s.leftHtml ++ truncationMsg
          rightHtml := s.rightHtml ++ truncationMsg
          chunkCount := s.chunkCount + 1
          truncated := true }
    else
      let s1 := { s with chunkCount := s.chunkCount + 1 }
      let escapedText := escapeHtml text
      match op with
      | DiffOp.delete =>
        let ringClass := if (s1.actualDiffIndex : Int) = highlightIndex then ringClassStr else []
        renderLoop maxChunks highlightIndex rest
          { s1 with
              leftHtml := s1.leftHtml ++ deleteSpan ringClass s1.actualDiffIndex escapedText
              actualDiffIndex := s1.actualDiffIndex + 1
              emittedIndices := s1.emittedIndices ++ [s1.actualDiffIndex] }
      | DiffOp.insert =>
        let ringClass := if (s1.actualDiffIndex : Int) = highlightIndex then ringClassStr else []
        renderLoop maxChunks highlightIndex rest
          { s1 with
              rightHtml := s1.rightHtml ++ insertSpan ringClass s1.actualDiffIndex escapedText
              actualDiffIndex := s1.actualDiffIndex + 1
              emittedIndices := s1.emittedIndices ++ [s1.actualDiffIndex] }
      | DiffOp.equal =>
        renderLoop maxChunks highlightIndex rest
          { s1 with
              leftHtml := s1.leftHtml ++ equalSpan escapedText
              rightHtml := s1.rightHtml ++ equalSpan escapedText }

/-- The initial values of the loop locals (lines 277-281). -/
def initialRenderState : RenderState :=
  { leftHtml := []
    rightHtml := []
    chunkCount := 0
    actualDiffIndex := 0
    truncated := false
    emittedIndices := [] }

/-- `renderDiffToHtml` (lines 270-316). -/
def renderDiffToHtml (diffs : List Diff) (options : RenderOptions) : RenderedDiff :=
  let maxChunks := options.maxChunks.getD 5000
  let highlightIndex := options.highlightIndex.getD (-1)
  let s := renderLoop maxChunks highlightIndex diffs initialRenderState
  { leftHtml := s.leftHtml
    rightHtml := s.rightHtml
    changeCount := s.actualDiffIndex
    truncated := s.truncated }

/-- Number of non-Equal operations in an edit sequence. -/
def countNonEqual : List Diff → Nat
  | [] => 0
  | d :: rest => (if d.1 = DiffOp.equal then 0 else 1) + countNonEqual rest

/-- One inductive characterization of the render loop: starting from state
`s`, exactly the first `(maxChunks + 1 - s.chunkCount).toNat` operations are
processed; `actualDiffIndex` grows by one per processed non-Equal operation;
the emitted `data-diff-index` values continue the consecutive range; and
`truncated` is set exactly when some operation is left unprocessed. -/
theorem renderLoop_characterization (maxChunks highlightIndex : Int) (diffs : List Diff)
    (s : RenderState) :
    (renderLoop maxChunks highlightIndex diffs s).actualDiffIndex
        = s.actualDiffIndex
            + countNonEqual (diffs.take (maxChunks + 1 - s.chunkCount).toNat) ∧
    (renderLoop maxChunks highlightIndex diffs s).emittedIndices
        = s.emittedIndices ++
            List.range' s.actualDiffIndex
              (countNonEqual (diffs.take (maxChunks + 1 - s.chunkCount).toNat)) ∧
    (renderLoop maxChunks highlightIndex diffs s).truncated
        = (s.truncated || decide ((maxChunks + 1 - s.chunkCount).toNat < diffs.length)) := by
  induction diffs generalizing s with
  | nil =>
    simp [renderLoop, countNonEqual]
  | cons d rest ih =>
    obtain ⟨op, text⟩ := d
    by_cases hc : (s.chunkCount : Int) > maxChunks
    · have hb : (maxChunks + 1 - s.chunkCount).toNat = 0 := by omega
      rw [renderLoop, if_pos hc]
      simp [hb, countNonEqual]
    · have hb : (maxChunks + 1 - s.chunkCount).toNat
          = (maxChunks + 1 - (s.chunkCount + 1)).toNat + 1 := by omega
      rw [renderLoop, if_neg hc, hb]
      have hlen : (((maxChunks + 1 - (s.chunkCount + 1)).toNat + 1 < rest.length + 1)
          ↔ ((maxChunks + 1 - (s.chunkCount + 1)).toNat < rest.length)) := by omega
      cases op with
      | delete =>
        refine ⟨?_, ?_, ?_⟩
        · rw [(ih _).1]
          simp [List.take_succ_cons, countNonEqual]
          omega
        · rw [(ih _).2.1]
          simp [List.take_succ_cons, countNonEqual, List.range'_succ, Nat.add_comm]
        · rw [(ih _).2.2]
          simp only [List.take_succ_cons, List.length_cons]
          congr 1
          simp [hlen]
      | insert =>
        refine ⟨?_, ?_, ?_⟩
        · rw [(ih _).1]
          simp [List.take_succ_cons, countNonEqual]
          omega
        · rw [(ih _).2.1]
          simp [List.take_succ_cons, countNonEqual, List.range'_succ, Nat.add_comm]
        · rw [(ih _).2.2]
          simp only [List.take_succ_cons, List.length_cons]
          congr 1
          simp [hlen]
      | equal =>
        refine ⟨?_, ?_, ?_⟩
        · rw [(ih _).1]
          simp [List.take_succ_cons, countNonEqual]
        · rw [(ih _).2.1]
          simp [List.take_succ_cons, countNonEqual]
        · rw [(ih _).2.2]
          simp only [List.take_succ_cons, List.length_cons]
          congr 1
          simp [hlen]

/-- If the loop set `truncated` starting from a non-truncated state, the
truncation marker was appended to both outputs. -/
theorem renderLoop_truncation_marker (maxChunks highlightIndex : Int) (diffs : List Diff)
    (s : RenderState) (hs : s.truncated = false)
    (ht : (renderLoop maxChunks highlightIndex diffs s).truncated = true) :
    (∃ p, (renderLoop maxChunks highlightIndex diffs s).leftHtml = p ++ truncationMsg) ∧
    (∃ q, (renderLoop maxChunks highlightIndex diffs s).rightHtml = q ++ truncationMsg) := by
  induction diffs generalizing s with
  | nil =>
    rw [renderLoop] at ht
    rw [hs] at ht
    exact absurd ht (by simp)
  | cons d rest ih =>
    obtain ⟨op, text⟩ := d
    by_cases hc : (s.chunkCount : Int) > maxChunks
    · rw [renderLoop, if_pos hc] at ht ⊢
      exact ⟨⟨s.leftHtml, rfl⟩, ⟨s.rightHtml, rfl⟩⟩
    · rw [renderLoop, if_neg hc] at ht ⊢
      cases op with
      | delete => exact ih _ hs ht
      | insert => exact ih _ hs ht
      | equal => exact ih _ hs ht

/-- `changeCount` and `truncated` of a render, by the loop characterization:
exactly the first `maxChunks + 1` operations are processed. -/
theorem renderDiffToHtml_formula (diffs : List Diff) (options : RenderOptions) :
    (renderDiffToHtml diffs options).changeCount
        = countNonEqual (diffs.take ((options.maxChunks.getD 5000) + 1).toNat) ∧
    (renderDiffToHtml diffs options).truncated
        = decide (((options.maxChunks.getD 5000) + 1).toNat < diffs.length) := by
  have h := renderLoop_characterization (options.maxChunks.getD 5000)
    (options.highlightIndex.getD (-1)) diffs initialRenderState
  rw [renderDiffToHtml]
  refine ⟨?_, ?_⟩
  · rw [h.1]
    simp [initialRenderState]
  · rw [h.2.2]
    simp [initialRenderState]

theorem countNonEqual_eq_length (ds : List Diff) (h : ∀ d ∈ ds, d.1 ≠ DiffOp.equal) :
    countNonEqual ds = ds.length := by
  induction ds with
  | nil => rfl
  | cons d rest ih =>
    have hd : d.1 ≠ DiffOp.equal := h d (by simp)
    rw [countNonEqual, if_neg hd, ih (fun e he => h e (by simp [he]))]
    simp [Nat.add_comm]

/-! ### Reconstruction and coalescing of the engine output -/

theorem reconstructA_computeLineDiff (a b : List Char) (deadline : ℚ) :
    reconstructA (computeLineDiff a b deadline) = a := by
  simp only [computeLineDiff]
  split
  · rw [computeLinesDiffAccurate, reconstructA_diff_main, List.intercalate_splitOn]
  · rw [computeLinesDiffFast, reconstructA_diff_main, List.intercalate_splitOn]

theorem reconstructB_computeLineDiff (a b : List Char) (deadline : ℚ) :
    reconstructB (computeLineDiff a b deadline) = b := by
  simp only [computeLineDiff]
  split
  · rw [computeLinesDiffAccurate, reconstructB_diff_main, List.intercalate_splitOn]
  · rw [computeLinesDiffFast, reconstructB_diff_main, List.intercalate_splitOn]

theorem reconstructA_selectDiffs (a b : List Char) (options : DiffOptions) (deadline : ℚ) :
    reconstructA (selectDiffs a b options deadline).1 = a := by
  simp only [selectDiffs]
  split
  · exact reconstructA_computeLineDiff a b deadline
  · split
    · exact reconstructA_diff_main a b false
    · exact reconstructA_diff_main a b true

theorem reconstructB_selectDiffs (a b : List Char) (options : DiffOptions) (deadline : ℚ) :
    reconstructB (selectDiffs a b options deadline).1 = b := by
  simp only [selectDiffs]
  split
  · exact reconstructB_computeLineDiff a b deadline
  · split
    · exact reconstructB_diff_main a b false
    · exact reconstructB_diff_main a b true

theorem chain_diff_main (a b : List Char) (c : Bool) :
    List.Chain' (fun d e => d.1 ≠ e.1) (diff_main a b c) :=
  chain_diff_cleanupMerge _

theorem chain_diff_cleanupSemantic (ds : List Diff) :
    List.Chain' (fun d e => d.1 ≠ e.1) (diff_cleanupSemantic ds) :=
  chain_diff_cleanupMerge _

theorem chain_computeLineDiff (a b : List Char) (deadline : ℚ) :
    List.Chain' (fun d e => d.1 ≠ e.1) (computeLineDiff a b deadline) := by
  simp only [computeLineDiff]
  split
  · exact chain_diff_main _ _ false
  · exact chain_diff_main _ _ true

theorem chain_selectDiffs (a b : List Char) (options : DiffOptions) (deadline : ℚ) :
    List.Chain' (fun d e => d.1 ≠ e.1) (selectDiffs a b options deadline).1 := by
  simp only [selectDiffs]
  split
  · exact chain_computeLineDiff a b deadline
  · split
    · exact chain_diff_main a b false
    · exact chain_diff_main a b true

theorem selectDiffs_algorithm (a b : List Char) (options : DiffOptions) (deadline : ℚ) :
    (selectDiffs a b options deadline).2
      = if (options.lineMode != some false && (a.contains '\n' || b.contains '\n')) then
          Algorithm.lineBased
        else if a.length + b.length < CHAR_THRESHOLD_ACCURATE then Algorithm.accurate
        else Algorithm.fast := by
  simp only [selectDiffs, apply_ite Prod.snd]

/-! ### Claims -/

/-- C1: for every pair of input strings and every options record, the edit
sequence returned by `computeDiff` reconstructs both inputs: the Equal+Delete
spans concatenate to the first input and the Equal+Insert spans concatenate
to the second, for every measured elapsed time — in particular also when
`hitTimeout` is true. -/
theorem computeDiff_reconstruction (a b : List Char) (options : DiffOptions) (elapsed : ℚ) :
    reconstructA (computeDiff a b options elapsed).diffs = a ∧
    reconstructB (computeDiff a b options elapsed).diffs = b := by
  by_cases h : a = b
  · subst h
    simp [computeDiff, reconstructA, reconstructB]
  · simp only [computeDiff, if_neg h]
    constructor
    · show reconstructA (if _ then diff_cleanupSemantic _ else _) = a
      split
      · rw [reconstructA_diff_cleanupSemantic, reconstructA_selectDiffs]
      · rw [reconstructA_selectDiffs]
    · show reconstructB (if _ then diff_cleanupSemantic _ else _) = b
      split
      · rw [reconstructB_diff_cleanupSemantic, reconstructB_selectDiffs]
      · rw [reconstructB_selectDiffs]

/-- C9: no two adjacent operations in the edit sequence returned by
`computeDiff` share the same tag. -/
theorem computeDiff_coalesced (a b : List Char) (options : DiffOptions) (elapsed : ℚ) :
    List.Chain' (fun d e => d.1 ≠ e.1) (computeDiff a b options elapsed).diffs := by
  by_cases h : a = b
  · subst h
    simp [computeDiff]
  · simp only [computeDiff, if_neg h]
    show List.Chain' (fun d e => d.1 ≠ e.1) (if _ then diff_cleanupSemantic _ else _)
    split
    · exact chain_diff_cleanupSemantic _
    · exact chain_selectDiffs _ _ _ _

/-- C4: `computeDiff(a, a, options)` returns a single `Equal(a)` operation,
`changeCount = 0`, `hitTimeout = false` and algorithm tag `fast`, for every
measured elapsed time. -/
theorem computeDiff_identity (a : List Char) (options : DiffOptions) (elapsed : ℚ) :
    (computeDiff a a options elapsed).diffs = [(DiffOp.equal, a)] ∧
    (computeDiff a a options elapsed).stats.changeCount = 0 ∧
    (computeDiff a a options elapsed).hitTimeout = false ∧
    (computeDiff a a options elapsed).algorithm = Algorithm.fast := by
  simp [computeDiff]

/-- C5: on distinct inputs the algorithm tag is `line-based` exactly when
line mode is active (`lineMode` not `false` and a `'\n'` in either input);
otherwise `accurate` when the combined length is below 500 and `fast` when it
is 500 or more. -/
theorem computeDiff_algorithm_selection (a b : List Char) (hab : a ≠ b)
    (options : DiffOptions) (elapsed : ℚ) :
    ((options.lineMode != some false && (a.contains '\n' || b.contains '\n')) = true →
      (computeDiff a b options elapsed).algorithm = Algorithm.lineBased) ∧
    ((options.lineMode != some false && (a.contains '\n' || b.contains '\n')) = false →
      ((a.length + b.length < CHAR_THRESHOLD_ACCURATE →
          (computeDiff a b options elapsed).algorithm = Algorithm.accurate) ∧
        (CHAR_THRESHOLD_ACCURATE ≤ a.length + b.length →
          (computeDiff a b options elapsed).algorithm = Algorithm.fast))) := by
  have halg : (computeDiff a b options elapsed).algorithm
      = (selectDiffs a b options (options.maxComputationTimeMs.getD DEFAULT_TIMEOUT)).2 := by
    simp [computeDiff, if_neg hab]
  refine ⟨fun h => ?_, fun h => ⟨fun hlt => ?_, fun hge => ?_⟩⟩
  · rw [halg, selectDiffs_algorithm, if_pos h]
  · rw [halg, selectDiffs_algorithm, if_neg (by rw [h]; exact Bool.false_ne_true), if_pos hlt]
  · rw [halg, selectDiffs_algorithm, if_neg (by rw [h]; exact Bool.false_ne_true),
      if_neg (Nat.not_lt.mpr hge)]

/-- Witness for C5: on `"\n"` vs `""` (line mode active) the theorem applies
and gives tag `line-based`. -/
theorem computeDiff_algorithm_selection_witness :
    ((({} : DiffOptions).lineMode != some false
        && (['\n'].contains '\n' || ([] : List Char).contains '\n')) = true →
      (computeDiff ['\n'] [] {} 0).algorithm = Algorithm.lineBased) ∧
    ((({} : DiffOptions).lineMode != some false
        && (['\n'].contains '\n' || ([] : List Char).contains '\n')) = false →
      ((['\n'].length + ([] : List Char).length < CHAR_THRESHOLD_ACCURATE →
          (computeDiff ['\n'] [] {} 0).algorithm = Algorithm.accurate) ∧
        (CHAR_THRESHOLD_ACCURATE ≤ ['\n'].length + ([] : List Char).length →
          (computeDiff ['\n'] [] {} 0).algorithm = Algorithm.fast))) :=
  computeDiff_algorithm_selection ['\n'] [] (by decide) {} 0

/-- C10: on distinct newline-free inputs, `computeDiff` never returns tag
`line-based`, even with `lineMode := true`: the tag is `accurate` or `fast`
by combined size. -/
theorem computeDiff_lineMode_true_needs_newline (a b : List Char) (hab : a ≠ b)
    (ha : a.contains '\n' = false) (hb : b.contains '\n' = false)
    (options : DiffOptions) (_hlm : options.lineMode = some true) (elapsed : ℚ) :
    (computeDiff a b options elapsed).algorithm ≠ Algorithm.lineBased ∧
    (computeDiff a b options elapsed).algorithm
      = (if a.length + b.length < CHAR_THRESHOLD_ACCURATE then Algorithm.accurate
          else Algorithm.fast) := by
  have halg : (computeDiff a b options elapsed).algorithm
      = (selectDiffs a b options (options.maxComputationTimeMs.getD DEFAULT_TIMEOUT)).2 := by
    simp [computeDiff, if_neg hab]
  have hcond : (options.lineMode != some false && (a.contains '\n' || b.contains '\n'))
      = false := by
    simp
    exact fun _ => ⟨by simpa using ha, by simpa using hb⟩
  rw [halg, selectDiffs_algorithm, if_neg (by rw [hcond]; exact Bool.false_ne_true)]
  constructor
  · split <;> simp
  · rfl

/-- C7: on distinct inputs, `hitTimeout` is true exactly when the measured
elapsed time (returned as `computationTimeMs`) is at least 95% of the
configured `maxComputationTimeMs` budget (the underlying algorithm is not
consulted); the semantic cleanup pass is applied to the selected diffs
exactly when `hitTimeout` is false and `semanticCleanup` is not `false`. -/
theorem computeDiff_hitTimeout_and_cleanup (a b : List Char) (hab : a ≠ b)
    (options : DiffOptions) (elapsed : ℚ) :
    ((computeDiff a b options elapsed).hitTimeout = true ↔
      elapsed ≥ options.maxComputationTimeMs.getD DEFAULT_TIMEOUT * (95 / 100)) ∧
    (computeDiff a b options elapsed).computationTimeMs = elapsed ∧
    ((computeDiff a b options elapsed).hitTimeout = false ∧
        options.semanticCleanup ≠ some false →
      (computeDiff a b options elapsed).diffs =
        diff_cleanupSemantic
          (selectDiffs a b options (options.maxComputationTimeMs.getD DEFAULT_TIMEOUT)).1) ∧
    ((computeDiff a b options elapsed).hitTimeout = true ∨
        options.semanticCleanup = some false →
      (computeDiff a b options elapsed).diffs =
        (selectDiffs a b options (options.maxComputationTimeMs.getD DEFAULT_TIMEOUT)).1) := by
  simp only [computeDiff, if_neg hab]
  refine ⟨by simp, by trivial, ?_, ?_⟩
  · rintro ⟨h1, h2⟩
    simp only [h1, Bool.not_false, Bool.true_and]
    rw [if_pos (bne_iff_ne.mpr h2)]
  · rintro (h1 | h2)
    · simp only [h1, Bool.not_true, Bool.false_and]
      rw [if_neg Bool.false_ne_true]
    · simp only [h2, bne_self_eq_false, Bool.and_false]
      rw [if_neg Bool.false_ne_true]

/-- Witness for C7: with a 100 ms budget and 95 ms measured, the theorem
applies to `"a"` vs `"b"` and classifies the run as timed out. -/
theorem computeDiff_hitTimeout_and_cleanup_witness :
    ((computeDiff ['a'] ['b'] { maxComputationTimeMs := some 100 } 95).hitTimeout = true ↔
      (95 : ℚ) ≥ ({ maxComputationTimeMs := some 100 }
          : DiffOptions).maxComputationTimeMs.getD DEFAULT_TIMEOUT * (95 / 100)) ∧
    (computeDiff ['a'] ['b'] { maxComputationTimeMs := some 100 } 95).computationTimeMs = 95 ∧
    ((computeDiff ['a'] ['b'] { maxComputationTimeMs := some 100 } 95).hitTimeout = false ∧
        ({ maxComputationTimeMs := some 100 } : DiffOptions).semanticCleanup ≠ some false →
      (computeDiff ['a'] ['b'] { maxComputationTimeMs := some 100 } 95).diffs =
        diff_cleanupSemantic
          (selectDiffs ['a'] ['b'] { maxComputationTimeMs := some 100 }
            (({ maxComputationTimeMs := some 100 }
              : DiffOptions).maxComputationTimeMs.getD DEFAULT_TIMEOUT)).1) ∧
    ((computeDiff ['a'] ['b'] { maxComputationTimeMs := some 100 } 95).hitTimeout = true ∨
        ({ maxComputationTimeMs := some 100 } : DiffOptions).semanticCleanup = some false →
      (computeDiff ['a'] ['b'] { maxComputationTimeMs := some 100 } 95).diffs =
        (selectDiffs ['a'] ['b'] { maxComputationTimeMs := some 100 }
          (({ maxComputationTimeMs := some 100 }
            : DiffOptions).maxComputationTimeMs.getD DEFAULT_TIMEOUT)).1) :=
  computeDiff_hitTimeout_and_cleanup ['a'] ['b'] (by decide)
    { maxComputationTimeMs := some 100 } 95

/-- Witness for C10: `"a"` vs `"b"` with `lineMode := true` gives tag
`accurate`, not `line-based`. -/
theorem computeDiff_lineMode_true_needs_newline_witness :
    (computeDiff ['a'] ['b'] { lineMode := some true } 0).algorithm ≠ Algorithm.lineBased ∧
    (computeDiff ['a'] ['b'] { lineMode := some true } 0).algorithm
      = (if (['a'] : List Char).length + (['b'] : List Char).length < CHAR_THRESHOLD_ACCURATE
          then Algorithm.accurate else Algorithm.fast) :=
  computeDiff_lineMode_true_needs_newline ['a'] ['b'] (by decide) (by decide) (by decide)
    { lineMode := some true } rfl 0

/-- C6: render assigns region indices 0, 1, 2, ... — exactly one per
non-Equal operation encountered, a single counter shared across Delete and
Insert — and the returned `changeCount` is the final counter value: the
number of non-Equal operations actually rendered before any truncation. -/
theorem renderDiffToHtml_region_indexing (diffs : List Diff) (options : RenderOptions) :
    (renderLoop (options.maxChunks.getD 5000) (options.highlightIndex.getD (-1)) diffs
        initialRenderState).emittedIndices
      = List.range
          ((renderLoop (options.maxChunks.getD 5000) (options.highlightIndex.getD (-1)) diffs
            initialRenderState).actualDiffIndex) ∧
    (renderDiffToHtml diffs options).changeCount
      = (renderLoop (options.maxChunks.getD 5000) (options.highlightIndex.getD (-1)) diffs
          initialRenderState).actualDiffIndex ∧
    (renderDiffToHtml diffs options).changeCount
      = countNonEqual (diffs.take ((options.maxChunks.getD 5000) + 1).toNat) := by
  have h := renderLoop_characterization (options.maxChunks.getD 5000)
    (options.highlightIndex.getD (-1)) diffs initialRenderState
  refine ⟨?_, rfl, (renderDiffToHtml_formula diffs options).1⟩
  rw [h.2.1, h.1]
  simp [initialRenderState, List.range_eq_range']

/-- C2 counterexample: with `maxChunks = 0`, the (trivially alternating)
sequence `[Insert "a"]` of length `maxChunks + 1` is rendered completely:
`truncated` is false and `changeCount` equals the full non-Equal count
instead of being strictly less. -/
theorem render_truncation_boundary_counterexample :
    ¬ ((renderDiffToHtml [(DiffOp.insert, ['a'])] { maxChunks := some 0 }).truncated = true ∧
      (renderDiffToHtml [(DiffOp.insert, ['a'])] { maxChunks := some 0 }).changeCount
        < countNonEqual [(DiffOp.insert, ['a'])]) := by
  decide

/-- C2 amended: truncation begins one operation later than the claim states:
an edit sequence of `maxChunks + 2` non-Equal operations (e.g. alternating
Delete/Insert) has its first `maxChunks + 1` operations rendered, then a
single truncation marker is appended to both outputs, `truncated` is set,
no further operations are processed, and `changeCount = maxChunks + 1` is
strictly less than the full non-Equal count.  (A sequence of length
`maxChunks + 1` is rendered completely with `truncated = false`.) -/
theorem render_truncation_boundary (m : Nat) (ds : List Diff) (hlen : ds.length = m + 2)
    (hne : ∀ d ∈ ds, d.1 ≠ DiffOp.equal) :
    (renderDiffToHtml ds { maxChunks := some (m : Int) }).truncated = true ∧
    (renderDiffToHtml ds { maxChunks := some (m : Int) }).changeCount = m + 1 ∧
    (renderDiffToHtml ds { maxChunks := some (m : Int) }).changeCount < countNonEqual ds ∧
    (∃ p, (renderDiffToHtml ds { maxChunks := some (m : Int) }).leftHtml
        = p ++ truncationMsg) ∧
    (∃ q, (renderDiffToHtml ds { maxChunks := some (m : Int) }).rightHtml
        = q ++ truncationMsg) := by
  have hf := renderDiffToHtml_formula ds { maxChunks := some (m : Int) }
  have hopt : ((({ maxChunks := some (m : Int) } : RenderOptions).maxChunks.getD 5000)
      + 1).toNat = m + 1 := by
    simp
  have hcc : (renderDiffToHtml ds { maxChunks := some (m : Int) }).changeCount = m + 1 := by
    rw [hf.1, hopt, countNonEqual_eq_length _ (fun d hd => hne d (List.take_subset _ _ hd)),
      List.length_take, hlen]
    omega
  have htr : (renderDiffToHtml ds { maxChunks := some (m : Int) }).truncated = true := by
    rw [hf.2, hopt, hlen]
    simp
  have hmk := renderLoop_truncation_marker ((m : Nat) : Int) (-1) ds initialRenderState rfl htr
  refine ⟨htr, hcc, ?_, hmk.1, hmk.2⟩
  rw [hcc, countNonEqual_eq_length ds hne, hlen]
  omega

/-- Witness for the amended C2: `maxChunks = 0` and the two-operation
sequence `[Delete "a", Insert "b"]`. -/
theorem render_truncation_boundary_witness :
    (renderDiffToHtml [(DiffOp.delete, ['a']), (DiffOp.insert, ['b'])]
        { maxChunks := some ((0 : Nat) : Int) }).truncated = true ∧
    (renderDiffToHtml [(DiffOp.delete, ['a']), (DiffOp.insert, ['b'])]
        { maxChunks := some ((0 : Nat) : Int) }).changeCount = 0 + 1 ∧
    (renderDiffToHtml [(DiffOp.delete, ['a']), (DiffOp.insert, ['b'])]
        { maxChunks := some ((0 : Nat) : Int) }).changeCount
      < countNonEqual [(DiffOp.delete, ['a']), (DiffOp.insert, ['b'])] ∧
    (∃ p, (renderDiffToHtml [(DiffOp.delete, ['a']), (DiffOp.insert, ['b'])]
        { maxChunks := some ((0 : Nat) : Int) }).leftHtml = p ++ truncationMsg) ∧
    (∃ q, (renderDiffToHtml [(DiffOp.delete, ['a']), (DiffOp.insert, ['b'])]
        { maxChunks := some ((0 : Nat) : Int) }).rightHtml = q ++ truncationMsg) :=
  render_truncation_boundary 0 [(DiffOp.delete, ['a']), (DiffOp.insert, ['b'])]
    (by decide) (by decide)

/-- C8 counterexample: no clamping happens.  If a supplied negative
`maxChunks` were clamped to some fixed sane (nonnegative) minimum `m`, then
rendering `[Insert "a"]` with `maxChunks = -1` would agree with rendering it
with `maxChunks = m`; but with `-1` the render truncates immediately and
reports `changeCount = 0`, while every nonnegative value renders the one
operation and reports `changeCount = 1` — the out-of-range value is used
as-is. -/
theorem options_not_clamped_counterexample :
    ¬ ∃ m : Int, 0 ≤ m ∧
        (renderDiffToHtml [(DiffOp.insert, ['a'])] { maxChunks := some (-1) }).changeCount
          = (renderDiffToHtml [(DiffOp.insert, ['a'])] { maxChunks := some m }).changeCount := by
  rintro ⟨m, hm, heq⟩
  have hf1 := renderDiffToHtml_formula [(DiffOp.insert, ['a'])] { maxChunks := some (-1) }
  have hf2 := renderDiffToHtml_formula [(DiffOp.insert, ['a'])] { maxChunks := some m }
  rw [hf1.1, hf2.1] at heq
  have e1 : countNonEqual (([(DiffOp.insert, ['a'])] : List Diff).take
      (((({ maxChunks := some (-1) } : RenderOptions).maxChunks.getD 5000) + 1).toNat))
      = 0 := rfl
  have e2 : countNonEqual (([(DiffOp.insert, ['a'])] : List Diff).take
      (((({ maxChunks := some m } : RenderOptions).maxChunks.getD 5000) + 1).toNat))
      = 1 := by
    show countNonEqual (([(DiffOp.insert, ['a'])] : List Diff).take (m + 1).toNat) = 1
    have hsucc : (m + 1).toNat = m.toNat + 1 := by omega
    rw [hsucc, List.take_succ_cons]
    simp [countNonEqual]
  rw [e1, e2] at heq
  exact absurd heq (by decide)

/-- C8 amended: out-of-range option values are neither rejected nor clamped —
the nullish-coalescing defaults apply only to absent options, and a supplied
out-of-range value is used as given.  A negative `maxComputationTimeMs`
makes `hitTimeout` true for every nonnegative measured elapsed time, so the
semantic cleanup pass is skipped; a negative `maxChunks` truncates before
rendering any operation, giving `changeCount = 0`. -/
theorem out_of_range_options_used_as_is (t : ℚ) (ht : t < 0) (elapsed : ℚ)
    (he : 0 ≤ elapsed) (a b : List Char) (hab : a ≠ b) (mc : Int) (hmc : mc < 0)
    (ds : List Diff) :
    (computeDiff a b { maxComputationTimeMs := some t } elapsed).hitTimeout = true ∧
    (computeDiff a b { maxComputationTimeMs := some t } elapsed).diffs
      = (selectDiffs a b { maxComputationTimeMs := some t } t).1 ∧
    (renderDiffToHtml ds { maxChunks := some mc }).changeCount = 0 ∧
    (renderDiffToHtml ds { maxChunks := some mc }).truncated = decide (0 < ds.length) := by
  have hge : elapsed ≥ t * (95 / 100) := by
    have h0 : t * (95 / 100 : ℚ) ≤ 0 := by nlinarith
    linarith
  have hf := renderDiffToHtml_formula ds { maxChunks := some mc }
  have hz : ((({ maxChunks := some mc } : RenderOptions).maxChunks.getD 5000) + 1).toNat
      = 0 := by
    simp only [Option.getD_some]
    omega
  refine ⟨?_, ?_, ?_, ?_⟩
  · simp only [computeDiff, if_neg hab, Option.getD_some]
    exact decide_eq_true hge
  · simp only [computeDiff, if_neg hab, Option.getD_some, decide_eq_true hge,
      Bool.not_true, Bool.false_and]
    rw [if_neg Bool.false_ne_true]
  · rw [hf.1, hz]
    simp [countNonEqual]
  · rw [hf.2, hz]

/-- Witness for the amended C8: timeout `-5` at elapsed time 0 on `"a"` vs
`"b"`, and `maxChunks = -1` on `[Insert "a"]`. -/
theorem out_of_range_options_used_as_is_witness :
    (computeDiff ['a'] ['b'] { maxComputationTimeMs := some (-5) } 0).hitTimeout = true ∧
    (computeDiff ['a'] ['b'] { maxComputationTimeMs := some (-5) } 0).diffs
      = (selectDiffs ['a'] ['b'] { maxComputationTimeMs := some (-5) } (-5)).1 ∧
    (renderDiffToHtml [(DiffOp.insert, ['a'])] { maxChunks := some (-1) }).changeCount = 0 ∧
    (renderDiffToHtml [(DiffOp.insert, ['a'])] { maxChunks := some (-1) }).truncated
      = decide (0 < ([(DiffOp.insert, ['a'])] : List Diff).length) :=
  out_of_range_options_used_as_is (-5) (by norm_num) 0 le_rfl ['a'] ['b'] (by decide)
    (-1) (by norm_num) [(DiffOp.insert, ['a'])]

/-- C3 (code bug): `optimizeDiffs` drops a short Equal run sitting between
two non-Equal runs instead of folding its text into the surrounding change,
so the cleaned sequence no longer reconstructs the inputs: on
`[Delete "a", Equal "x", Insert "b"]` the span `"x"` vanishes from both
reconstructions. -/
theorem optimizeDiffs_drops_short_equal :
    optimizeDiffs [(DiffOp.delete, ['a']), (DiffOp.equal, ['x']), (DiffOp.insert, ['b'])]
      = [(DiffOp.delete, ['a']), (DiffOp.insert, ['b'])] ∧
    reconstructA (optimizeDiffs
        [(DiffOp.delete, ['a']), (DiffOp.equal, ['x']), (DiffOp.insert, ['b'])])
      ≠ reconstructA [(DiffOp.delete, ['a']), (DiffOp.equal, ['x']), (DiffOp.insert, ['b'])] ∧
    reconstructB (optimizeDiffs
        [(DiffOp.delete, ['a']), (DiffOp.equal, ['x']), (DiffOp.insert, ['b'])])
      ≠ reconstructB [(DiffOp.delete, ['a']), (DiffOp.equal, ['x']), (DiffOp.insert, ['b'])] := by
  decide

end DiffViewer
